import Mathlib

/-!
Verification development for the `latent-aggregation` relative-representation
pipeline (`src/la/scripts/analyze_totally_disjoint.py` and
`src/la/utils/utils.py`).

Conventions of the shallow embedding:
* embedding vectors are `List ℝ`; tensors of embeddings are `List (List ℝ)`;
* `torch.nn.functional.normalize(x, p=2, dim=-1)` is `fNormalize`, which
  divides each coordinate by `max ‖v‖₂ eps` with `eps = 1e-12`, exactly as
  the torch implementation clamps the denominator;
* a dataset is a `List Row`; a `MyDatasetDict`-style store for the pipeline is
  a `Store` (total maps from task index and split to datasets);
* Python `assert`/`KeyError`/`RuntimeError` failures become `Except Err` or
  `Option` results, with one `Err` constructor per failure site.
-/

/-- The clamp constant of `torch.nn.functional.normalize` (`eps=1e-12`). -/
noncomputable def eps : ℝ := 1 / 10 ^ 12

/-- Dot product of two vectors, truncating at the shorter length (the code
only ever applies it to equal-length vectors). -/
noncomputable def dot : List ℝ → List ℝ → ℝ
  | x :: xs, y :: ys => x * y + dot xs ys
  | _, _ => 0

/-- Squared L2 norm of a vector: `dot v v`. -/
noncomputable def normSq (v : List ℝ) : ℝ := dot v v

/-- L2 norm of a vector. -/
noncomputable def l2norm (v : List ℝ) : ℝ := Real.sqrt (normSq v)

/-- Shallow embedding of `F.normalize(v, p=2, dim=-1)`: divide every
coordinate by `max ‖v‖₂ eps`. -/
noncomputable def fNormalize (v : List ℝ) : List ℝ := v.map (fun x => x / max (l2norm v) eps)

/-- A sample record of the pipeline: the fields touched by the analyzed code
(`id`, `y`, `embedding`, and the derived `relative_embeddings` column, absent
until the projection stage attaches it). -/
structure Row where
  id : Int
  y : Int
  embedding : List ℝ
  relative_embeddings : Option (List ℝ) := none

/-- The four split names used by the script. -/
inductive Mode where
  | train
  | val
  | test
  | anchorsM
deriving DecidableEq

/-- Error taxonomy: one constructor per failure site of the script
(`KeyError` from a missing label mapping, the two `assert` failures, the
tensor shape mismatch `RuntimeError`, and the I/O failures of
`MyDatasetDict`). -/
inductive Err where
  | missingLabel (task : Nat) (mode : Mode) (y : Int)
  | anchorMismatch
  | alignment
  | shapeMismatch
  | keyError
  | fileNotFound
deriving DecidableEq

/-- The pipeline's view of a `MyDatasetDict`: for every task index and split a
dataset, plus the metadata (`num_tasks` and the per-task global-to-local
class mappings, each an association list of (global, local) pairs). -/
structure Store where
  numTasks : Nat
  g2l : Nat → List (Int × Int)
  tasks : Nat → Mode → List Row

/-- `data[f"task_{i}_{m}"] = d`. -/
def setTask (s : Store) (i : Nat) (m : Mode) (d : List Row) : Store :=
  { s with tasks := fun j m' => if j = i ∧ m' = m then d else s.tasks j m' }

/-- `data[f"task_{i}_anchors"]["embedding"]`. -/
def anchorsEmb (s : Store) (i : Nat) : List (List ℝ) :=
  (s.tasks i Mode.anchorsM).map (fun r => r.embedding)

/-- `data[f"task_{i}_anchors"]["id"]`. -/
def anchorIds (s : Store) (i : Nat) : List Int :=
  (s.tasks i Mode.anchorsM).map (fun r => r.id)

/-- `dataset["id"]` of a dataset. -/
def idsOf (ds : List Row) : List Int := ds.map (fun r => r.id)

/-- `abs_space @ norm_anchors.T` (each row of the first matrix dotted with
each row of the second). -/
noncomputable def matMulT (m1 m2 : List (List ℝ)) : List (List ℝ) :=
  m1.map (fun r => m2.map (fun c => dot r c))

/-- `rel_space = F.normalize(samples) @ F.normalize(anchors).T`. -/
noncomputable def relSpace (anchors samples : List (List ℝ)) : List (List ℝ) :=
  matMulT (samples.map fNormalize) (anchors.map fNormalize)

/-- `add_tensor_column` from `src/la/utils/utils.py`, specialised to the
`relative_embeddings` column: rebuild the dataset from its dict with the
tensor as a new column. `Dataset.from_dict` requires all columns to have the
same length, hence the `Option`. -/
noncomputable def addTensorColumn (ds : List Row) (t : List (List ℝ)) : Option (List Row) :=
  if ds.length = t.length then
    some (List.zipWith (fun r v => { r with relative_embeddings := some v }) ds t)
  else
    none

/-- One (task, split) step of the `map to relative` loop. -/
noncomputable def projectSplit (anchors : List (List ℝ)) (ds : List Row) : Option (List Row) :=
  addTensorColumn ds (relSpace anchors (ds.map (fun r => r.embedding)))

/-- The projected form of a single row: its `relative_embeddings` column is
its cosine-similarity vector against the anchors. -/
noncomputable def projRow (anchors : List (List ℝ)) (r : Row) : Row :=
  { r with relative_embeddings := some (anchors.map (fun a => dot (fNormalize r.embedding) (fNormalize a))) }

/-- The body of `for task_ind in range(0, num_tasks + 1)` in the
`map to relative` stage: project `train` then `test` of one task against the
task's anchors. -/
noncomputable def projectTask (s : Store) (i : Nat) : Option Store :=
  let anchors := (s.tasks i Mode.anchorsM).map (fun r => r.embedding)
  match projectSplit anchors (s.tasks i Mode.train) with
  | none => none
  | some dtr =>
    let s1 := setTask s i Mode.train dtr
    match projectSplit anchors (s1.tasks i Mode.test) with
    | none => none
    | some dte => some (setTask s1 i Mode.test dte)

/-- The `map to relative` loop over a given list of task indices. -/
noncomputable def projectLoop (s : Store) : List Nat → Option Store
  | [] => some s
  | i :: rest =>
    match projectTask s i with
    | none => none
    | some s1 => projectLoop s1 rest

/-- The whole `map to relative` stage
(`for task_ind in range(0, num_tasks + 1): ...`). -/
noncomputable def stageProject (s : Store) : Option Store :=
  projectLoop s (List.range (s.numTasks + 1))

/-- `local_to_global_map = {v: int(k) for k, v in global_to_local_map.items()}`
followed by `[l]`: invert the (global, local) association list with Python's
last-wins dict-comprehension semantics, then look up a local label. -/
def localToGlobal : List (Int × Int) → Int → Option Int
  | [], _ => none
  | (g, lo) :: rest, l =>
    match localToGlobal rest l with
    | some r => some r
    | none => if lo = l then some g else none

/-- The rewritten form of one row: `y` replaced by its global label (the
default branch is never reached when the mapping is total on the data). -/
def labelRow (m0 : List (Int × Int)) (r : Row) : Row :=
  { r with y := (localToGlobal m0 r.y).getD r.y }

/-- `dataset.map(lambda row: {"y": local_to_global_map[row["y"].item()]})`:
rewrite every row's label, failing like Python's `KeyError` on the first
label that the inverted mapping does not cover. -/
def labelRows (f : Int → Option Int) (i : Nat) (m : Mode) : List Row → Except Err (List Row)
  | [] => .ok []
  | r :: rs =>
    match f r.y with
    | none => .error (Err.missingLabel i m r.y)
    | some g =>
      match labelRows f i m rs with
      | .error e => .error e
      | .ok rs' => .ok ({ r with y := g } :: rs')

/-- The body of `for task_ind in range(1, num_tasks + 1)` in
`map_labels_to_global`: rewrite `train`, `val`, `test` of one task. -/
def labelTask (s : Store) (i : Nat) : Except Err Store :=
  match labelRows (localToGlobal (s.g2l i)) i Mode.train (s.tasks i Mode.train) with
  | .error e => .error e
  | .ok tr =>
    match labelRows (localToGlobal (s.g2l i)) i Mode.val (s.tasks i Mode.val) with
    | .error e => .error e
    | .ok va =>
      match labelRows (localToGlobal (s.g2l i)) i Mode.test (s.tasks i Mode.test) with
      | .error e => .error e
      | .ok te => .ok (setTask (setTask (setTask s i Mode.train tr) i Mode.val va) i Mode.test te)

/-- The label-reconciliation loop over a list of task indices. -/
def labelLoop (s : Store) : List Nat → Except Err Store
  | [] => .ok s
  | i :: rest =>
    match labelTask s i with
    | .error e => .error e
    | .ok s1 => labelLoop s1 rest

/-- `map_labels_to_global(data, num_tasks)`:
`for task_ind in range(1, num_tasks + 1): ...`. -/
def stageMapLabels (s : Store) : Except Err Store :=
  labelLoop s (List.range' 1 s.numTasks)

/-- `torch.eq` on two 1-D integer tensors followed by `torch.all`, with
torch's broadcasting semantics: equal lengths compare pointwise, a length-1
tensor broadcasts against the other, and any other length combination raises
(`none`). -/
def bcastAllEq (a b : List Int) : Option Bool :=
  if a.length = b.length then some (decide (a = b))
  else if a.length = 1 then some (decide (∀ x ∈ b, x = a.headI))
  else if b.length = 1 then some (decide (∀ x ∈ a, x = b.headI))
  else none

/-- The condition under which `torch.all(torch.eq(a, b))` evaluates to a true
tensor: the sequences are equal, or one has length 1 and every element of the
other equals that single element. -/
def broadcastIdsOk (a b : List Int) : Prop :=
  a = b ∨ (a.length = 1 ∧ ∀ x ∈ b, x = a.headI) ∨ (b.length = 1 ∧ ∀ x ∈ a, x = b.headI)

/-- The pair loop of `check_same_anchor_ids`: first failing pair aborts, a
shape-incompatible pair raises the tensor `RuntimeError`. -/
def checkPairs (s : Store) : List (Nat × Nat) → Except Err Unit
  | [] => .ok ()
  | p :: rest =>
    match bcastAllEq (anchorIds s p.1) (anchorIds s p.2) with
    | none => .error Err.shapeMismatch
    | some false => .error Err.anchorMismatch
    | some true => checkPairs s rest

/-- `[(i, j) for i in range(n + 1) for j in range(i, n + 1)]`. -/
def allPairs (n : Nat) : List (Nat × Nat) :=
  ((List.range (n + 1)).map (fun i => (List.range' i (n + 1 - i)).map (fun j => (i, j)))).flatten

/-- `check_same_anchor_ids(data, num_tasks)`. -/
def checkSameAnchorIds (s : Store) : Except Err Unit :=
  checkPairs s (allPairs s.numTasks)

/-- Stable insertion into an id-sorted list. -/
def insertById (r : Row) : List Row → List Row
  | [] => [r]
  | x :: xs => if r.id ≤ x.id then r :: x :: xs else x :: insertById r xs

/-- `dataset.sort("id")`. -/
def sortById (l : List Row) : List Row := l.foldr insertById []

/-- `concatenate_datasets([data[f"task_{i}_{m}"] for i in range(1, num_tasks + 1)])`. -/
def concatTasks (s : Store) (m : Mode) : List Row :=
  ((List.range' 1 s.numTasks).map (fun i => s.tasks i m)).flatten

/-- Id sequence of the merged, id-sorted test set. -/
def mergedTestIds (s : Store) : List Int := idsOf (sortById (concatTasks s Mode.test))

/-- Id sequence of the id-sorted task-0 test set. -/
def originalTestIds (s : Store) : List Int := idsOf (sortById (s.tasks 0 Mode.test))

/-- Id sequence of the merged, id-sorted train set. -/
def mergedTrainIds (s : Store) : List Int := idsOf (sortById (concatTasks s Mode.train))

/-- Id sequence of the id-sorted task-0 train set. -/
def originalTrainIds (s : Store) : List Int := idsOf (sortById (s.tasks 0 Mode.train))

/-- The merge-and-align stage: concatenate tasks `1..num_tasks` for `train`
and `test`, sort everything by id, and run
`assert torch.all(torch.eq(merged_dataset_test["id"], original_dataset_test["id"]))`.
The train-side check is commented out in the source and therefore absent. -/
def mergeStage (s : Store) : Except Err (List Row × List Row × List Row × List Row) :=
  let mTrain := sortById (concatTasks s Mode.train)
  let mTest := sortById (concatTasks s Mode.test)
  let oTrain := sortById (s.tasks 0 Mode.train)
  let oTest := sortById (s.tasks 0 Mode.test)
  match bcastAllEq (idsOf mTest) (idsOf oTest) with
  | none => .error Err.shapeMismatch
  | some false => .error Err.alignment
  | some true => .ok (mTrain, mTest, oTrain, oTest)

/-- The metadata record of a `MyDatasetDict`: `num_tasks` plus the per-task
global-to-local class mappings. -/
structure Meta where
  numTasks : Nat
  maps : List (Nat × List (Int × Int))
deriving DecidableEq

/-- A value stored under a key of a `MyDatasetDict`: either a dataset or the
metadata record. -/
inductive Entry where
  | ds (rows : List Row)
  | meta (m : Meta)

/-- Python dict lookup on an insertion-ordered association list. -/
def lookupKey : List (String × Entry) → String → Option Entry
  | [], _ => none
  | (k', v) :: rest, k => if k' = k then some v else lookupKey rest k

/-- `del d[k]`. -/
def eraseKey (d : List (String × Entry)) (k : String) : List (String × Entry) :=
  d.filter (fun p => p.1 ≠ k)

/-- `d[k] = v` with Python dict semantics: replace in place if the key
exists, otherwise append. -/
def setKey (d : List (String × Entry)) (k : String) (v : Entry) : List (String × Entry) :=
  match lookupKey d k with
  | some _ => d.map (fun p => if p.1 = k then (k, v) else p)
  | none => d ++ [(k, v)]

/-- The on-disk state written by `MyDatasetDict`: the bulk
`DatasetDict.save_to_disk` payload and the `metadata.json` sidecar. -/
structure DiskState where
  bulk : Option (List (String × Entry)) := none
  metaFile : Option Entry := none

/-- `MyDatasetDict.save_to_disk`: write `metadata.json`, pop the `metadata`
key, bulk-save the remaining dict, then restore the key (Python re-insertion
appends it at the end). Fails like `KeyError` when there is no metadata. -/
def saveToDisk (store : List (String × Entry)) (disk : DiskState) :
    Except Err (List (String × Entry) × DiskState) :=
  match lookupKey store "metadata" with
  | none => .error Err.keyError
  | some e =>
    let store1 := eraseKey store "metadata"
    .ok (store1 ++ [("metadata", e)], { disk with metaFile := some e, bulk := some store1 })

/-- `MyDatasetDict.load_from_disk`: load the bulk dict, then
`dataset["metadata"] = json.load(... / "metadata.json")`. -/
def loadFromDisk (disk : DiskState) : Except Err (List (String × Entry)) :=
  match disk.bulk, disk.metaFile with
  | some b, some m => .ok (setKey b "metadata" m)
  | _, _ => .error Err.fileNotFound

/-- The three splits rewritten by `map_labels_to_global`. -/
def labelModes (m : Mode) : Prop := m = Mode.train ∨ m = Mode.val ∨ m = Mode.test

instance labelModesDecidable (m : Mode) : Decidable (labelModes m) := by
  unfold labelModes
  exact inferInstance

/-- Witness for C1: one task (task 0), a single anchor with embedding
`[1, 0]` and a single train sample with embedding `[1, 0]`; projection
attaches `relative_embeddings = [1]` (cosine similarity one). -/
noncomputable def storeC1 : Store :=
  { numTasks := 0
    g2l := fun _ => []
    tasks := fun i m =>
      if i = 0 ∧ m = Mode.anchorsM then [{ id := 100, y := 0, embedding := [1, 0] }]
      else if i = 0 ∧ m = Mode.train then [{ id := 1, y := 0, embedding := [1, 0] }]
      else [] }

/-- Witness for C5: one task, anchor `[1, 0]`, train sample `[0, 1]` (all
nonzero norm); the attached column has one row of one entry in `[-1, 1]`. -/
noncomputable def storeC5 : Store :=
  { numTasks := 0
    g2l := fun _ => []
    tasks := fun i m =>
      if i = 0 ∧ m = Mode.anchorsM then [{ id := 100, y := 0, embedding := [1, 0] }]
      else if i = 0 ∧ m = Mode.train then [{ id := 2, y := 0, embedding := [0, 1] }]
      else [] }

/-- Counterexample store for C4: task 0 has an anchor `[1, 0]` and a train
sample whose embedding is the zero vector `[0, 0]`. -/
noncomputable def storeC4 : Store :=
  { numTasks := 0
    g2l := fun _ => []
    tasks := fun i m =>
      if i = 0 ∧ m = Mode.anchorsM then [{ id := 100, y := 0, embedding := [1, 0] }]
      else if i = 0 ∧ m = Mode.train then [{ id := 1, y := 0, embedding := [0, 0] }]
      else [] }

/-- Witness store for the amended C4: same shape as `storeC4` but distinct
ids, with the zero sample in the test split. -/
noncomputable def storeC4w : Store :=
  { numTasks := 0
    g2l := fun _ => []
    tasks := fun i m =>
      if i = 0 ∧ m = Mode.anchorsM then [{ id := 200, y := 0, embedding := [1, 0] }]
      else if i = 0 ∧ m = Mode.test then [{ id := 3, y := 0, embedding := [0, 0] }]
      else [] }

/-- Counterexample store for C3: task 0 has one anchor with id 5, task 1 has
two anchors, both with id 5 — the id sequences differ (in length), yet
`torch.eq` broadcasts the length-1 tensor. -/
def storeC3 : Store :=
  { numTasks := 1
    g2l := fun _ => []
    tasks := fun i m =>
      if i = 0 ∧ m = Mode.anchorsM then [{ id := 5, y := 0, embedding := [] }]
      else if i = 1 ∧ m = Mode.anchorsM then
        [{ id := 5, y := 0, embedding := [] }, { id := 5, y := 0, embedding := [] }]
      else [] }

/-- Witness store for the amended C3: identical anchor ids everywhere. -/
def storeC3w : Store :=
  { numTasks := 0
    g2l := fun _ => []
    tasks := fun i m =>
      if i = 0 ∧ m = Mode.anchorsM then [{ id := 9, y := 0, embedding := [] }]
      else [] }

/-- Counterexample store for C2: task 1's test split has one sample with id
7; the task-0 reference test split has two samples, both with id 7. -/
def storeC2 : Store :=
  { numTasks := 1
    g2l := fun _ => []
    tasks := fun i m =>
      if i = 1 ∧ m = Mode.test then [{ id := 7, y := 0, embedding := [] }]
      else if i = 0 ∧ m = Mode.test then
        [{ id := 7, y := 0, embedding := [] }, { id := 7, y := 1, embedding := [] }]
      else [] }

/-- Witness store for the amended C2: merged test ids `[4]` equal reference
test ids `[4]`, so the merge succeeds. -/
def storeC2w : Store :=
  { numTasks := 1
    g2l := fun _ => []
    tasks := fun i m =>
      if i = 1 ∧ m = Mode.test then [{ id := 4, y := 0, embedding := [] }]
      else if i = 0 ∧ m = Mode.test then [{ id := 4, y := 0, embedding := [] }]
      else [] }

/-- Witness store for C9: merged train ids `[3]` differ from reference train
ids `[2, 3]` (the reference holds extra samples), while the test ids agree. -/
def storeC9 : Store :=
  { numTasks := 1
    g2l := fun _ => []
    tasks := fun i m =>
      if i = 1 ∧ m = Mode.train then [{ id := 3, y := 0, embedding := [] }]
      else if i = 0 ∧ m = Mode.train then
        [{ id := 2, y := 0, embedding := [] }, { id := 3, y := 0, embedding := [] }]
      else if i = 1 ∧ m = Mode.test then [{ id := 8, y := 0, embedding := [] }]
      else if i = 0 ∧ m = Mode.test then [{ id := 8, y := 0, embedding := [] }]
      else [] }

/-- Witness store for C6: one task whose mapping sends global label 7 to
local label 0, and one train sample carrying local label 0. -/
def storeC6 : Store :=
  { numTasks := 1
    g2l := fun i => if i = 1 then [(7, 0)] else []
    tasks := fun i m =>
      if i = 1 ∧ m = Mode.train then [{ id := 1, y := 0, embedding := [] }]
      else [] }

/-- Witness store for C7: one task with an empty label mapping and a train
sample with local label 5, which therefore has no inverse. -/
def storeC7 : Store :=
  { numTasks := 1
    g2l := fun _ => []
    tasks := fun i m =>
      if i = 1 ∧ m = Mode.train then [{ id := 1, y := 5, embedding := [] }]
      else [] }

/-- Witness objects for C8. -/
def metaC8 : Meta := { numTasks := 2, maps := [(1, [(3, 0)]), (2, [(4, 0)])] }

def storeC8 : List (String × Entry) :=
  [("task_0_train", Entry.ds []), ("metadata", Entry.meta metaC8)]

/-- Witness objects for C10: the metadata key sits FIRST in the dict, so the
save reorders it to the end, yet every lookup is unchanged. -/
def metaC10 : Meta := { numTasks := 1, maps := [(1, [(6, 0)])] }

def storeC10 : List (String × Entry) :=
  [("metadata", Entry.meta metaC10), ("task_0_test", Entry.ds [])]

def storeC10saved : List (String × Entry) :=
  [("task_0_test", Entry.ds []), ("metadata", Entry.meta metaC10)]

def diskC10 : DiskState :=
  { bulk := some [("task_0_test", Entry.ds [])], metaFile := some (Entry.meta metaC10) }

theorem dot_nil_left (w : List ℝ) : dot [] w = 0 := by cases w <;> rfl

theorem dot_nil_right (v : List ℝ) : dot v [] = 0 := by cases v <;> rfl

theorem normSq_nonneg (v : List ℝ) : 0 ≤ normSq v := by
  induction v with
  | nil => simp [normSq, dot]
  | cons x xs ih =>
      have : normSq (x :: xs) = x * x + normSq xs := rfl
      rw [this]
      nlinarith [ih]

/-- Discrete Cauchy–Schwarz for the list dot product. -/
theorem dot_sq_le (v w : List ℝ) : (dot v w) ^ 2 ≤ normSq v * normSq w := by
  induction v generalizing w with
  | nil =>
      rw [dot_nil_left]
      have := normSq_nonneg w
      have := normSq_nonneg ([] : List ℝ)
      nlinarith
  | cons x xs ih =>
      cases w with
      | nil =>
          rw [dot_nil_right]
          have h0 : normSq ([] : List ℝ) = 0 := rfl
          have := normSq_nonneg (x :: xs)
          rw [h0]
          nlinarith
      | cons y ys =>
          have hd : dot (x :: xs) (y :: ys) = x * y + dot xs ys := rfl
          have hv : normSq (x :: xs) = x * x + normSq xs := rfl
          have hw : normSq (y :: ys) = y * y + normSq ys := rfl
          rw [hd, hv, hw]
          have hcs := ih ys
          have hp := normSq_nonneg xs
          have hq := normSq_nonneg ys
          rcases eq_or_lt_of_le hq with hq0 | hqpos
          · have hd0 : dot xs ys = 0 := by nlinarith [sq_nonneg (dot xs ys)]
            rw [hd0]
            nlinarith [mul_nonneg hp (sq_nonneg y)]
          · nlinarith [sq_nonneg (x * normSq ys - y * dot xs ys),
              mul_nonneg (by nlinarith [sq_nonneg y] : (0:ℝ) ≤ y * y + normSq ys)
                (sub_nonneg.mpr hcs), hqpos]

theorem normSq_map_div (v : List ℝ) (c : ℝ) :
    normSq (v.map (fun x => x / c)) = normSq v / c ^ 2 := by
  induction v with
  | nil => simp [normSq, dot]
  | cons x xs ih =>
      have h1 : normSq ((x :: xs).map (fun x => x / c))
          = (x / c) * (x / c) + normSq (xs.map (fun x => x / c)) := rfl
      have h2 : normSq (x :: xs) = x * x + normSq xs := rfl
      rw [h1, h2, ih, div_mul_div_comm, ← pow_two c, div_add_div_same]

theorem dot_map_div (v w : List ℝ) (c d : ℝ) :
    dot (v.map (fun x => x / c)) (w.map (fun x => x / d)) = dot v w / (c * d) := by
  induction v generalizing w with
  | nil => simp [dot_nil_left]
  | cons x xs ih =>
      cases w with
      | nil => simp [dot_nil_right]
      | cons y ys =>
          have h1 : dot ((x :: xs).map (fun x => x / c)) ((y :: ys).map (fun x => x / d))
              = (x / c) * (y / d) + dot (xs.map (fun x => x / c)) (ys.map (fun x => x / d)) := rfl
          have h2 : dot (x :: xs) (y :: ys) = x * y + dot xs ys := rfl
          rw [h1, h2, ih, div_mul_div_comm, div_add_div_same]

theorem eps_pos : 0 < eps := by norm_num [eps]

theorem normSq_fNormalize_le_one (v : List ℝ) : normSq (fNormalize v) ≤ 1 := by
  have hM : 0 < max (l2norm v) eps := lt_max_of_lt_right eps_pos
  have hle : l2norm v ≤ max (l2norm v) eps := le_max_left _ _
  have hnn : 0 ≤ l2norm v := Real.sqrt_nonneg _
  have hsq : l2norm v ^ 2 = normSq v := Real.sq_sqrt (normSq_nonneg v)
  have hbound : normSq v ≤ (max (l2norm v) eps) ^ 2 := by
    calc normSq v = l2norm v ^ 2 := hsq.symm
    _ ≤ (max (l2norm v) eps) ^ 2 := by nlinarith
  rw [fNormalize, normSq_map_div]
  rw [div_le_one (by positivity)]
  exact hbound

/-- Every similarity produced from `fNormalize`d vectors lies in `[-1, 1]`. -/
theorem dot_fNormalize_mem_Icc (v w : List ℝ) :
    -1 ≤ dot (fNormalize v) (fNormalize w) ∧ dot (fNormalize v) (fNormalize w) ≤ 1 := by
  have h1 := dot_sq_le (fNormalize v) (fNormalize w)
  have h2 := normSq_fNormalize_le_one v
  have h3 := normSq_fNormalize_le_one w
  have h4 := normSq_nonneg (fNormalize v)
  have h5 := normSq_nonneg (fNormalize w)
  have hsq : (dot (fNormalize v) (fNormalize w)) ^ 2 ≤ 1 := by nlinarith
  have habs := (sq_le_one_iff_abs_le_one _).mp hsq
  exact abs_le.mp habs

theorem normSq_eq_zero_forall (v : List ℝ) (h : normSq v = 0) : ∀ x ∈ v, x = 0 := by
  induction v with
  | nil => intro x hx; simp at hx
  | cons x xs ih =>
      have h1 : normSq (x :: xs) = x * x + normSq xs := rfl
      rw [h1] at h
      have hx2 : 0 ≤ x * x := mul_self_nonneg x
      have hxs := normSq_nonneg xs
      have hx : x = 0 := by nlinarith
      have hs : normSq xs = 0 := by nlinarith
      intro z hz
      rcases List.mem_cons.mp hz with hz | hz
      · rw [hz, hx]
      · exact ih hs z hz

theorem dot_eq_zero_of_left_zero (v w : List ℝ) (h : ∀ x ∈ v, x = 0) : dot v w = 0 := by
  induction v generalizing w with
  | nil => rw [dot_nil_left]
  | cons x xs ih =>
      cases w with
      | nil => rw [dot_nil_right]
      | cons y ys =>
          have h1 : dot (x :: xs) (y :: ys) = x * y + dot xs ys := rfl
          rw [h1, h x (List.mem_cons_self x xs), ih ys (fun z hz => h z (List.mem_cons_of_mem x hz))]
          ring

theorem fNormalize_zero_normSq (v : List ℝ) (h : normSq v = 0) :
    ∀ x ∈ fNormalize v, x = 0 := by
  intro x hx
  rcases List.mem_map.mp hx with ⟨z, hz, rfl⟩
  rw [normSq_eq_zero_forall v h z hz, zero_div]

theorem setTask_tasks (s : Store) (i : Nat) (m : Mode) (d : List Row) (j : Nat) (m' : Mode) :
    (setTask s i m d).tasks j m' = if j = i ∧ m' = m then d else s.tasks j m' := rfl

theorem setTask_numTasks (s : Store) (i : Nat) (m : Mode) (d : List Row) :
    (setTask s i m d).numTasks = s.numTasks := rfl

theorem setTask_g2l (s : Store) (i : Nat) (m : Mode) (d : List Row) :
    (setTask s i m d).g2l = s.g2l := rfl

theorem zipWith_proj (anchors : List (List ℝ)) (ds : List Row) :
    List.zipWith (fun r v => { r with relative_embeddings := some v }) ds
      (((ds.map (fun r => r.embedding)).map fNormalize).map
        (fun r => (anchors.map fNormalize).map (fun c => dot r c)))
    = ds.map (projRow anchors) := by
  induction ds with
  | nil => rfl
  | cons r rs ih =>
      simp only [List.map_cons, List.zipWith_cons_cons]
      rw [ih]
      congr 1
      simp [projRow, List.map_map]

theorem projectSplit_eq (anchors : List (List ℝ)) (ds : List Row) :
    projectSplit anchors ds = some (ds.map (projRow anchors)) := by
  unfold projectSplit addTensorColumn relSpace matMulT
  have hlen : ds.length = (((ds.map (fun r => r.embedding)).map fNormalize).map
      (fun r => (anchors.map fNormalize).map (fun c => dot r c))).length := by
    simp
  rw [if_pos hlen]
  exact congrArg some (zipWith_proj anchors ds)

theorem projectTask_eq (s : Store) (i : Nat) :
    projectTask s i = some (setTask (setTask s i Mode.train
      ((s.tasks i Mode.train).map (projRow (anchorsEmb s i)))) i Mode.test
      ((s.tasks i Mode.test).map (projRow (anchorsEmb s i)))) := by
  unfold projectTask
  simp only [projectSplit_eq, setTask_tasks]
  simp [anchorsEmb]

theorem projectTask_anchorsEmb (s : Store) (i j : Nat) (s' : Store)
    (h : projectTask s i = some s') : anchorsEmb s' j = anchorsEmb s j := by
  rw [projectTask_eq] at h
  cases h
  unfold anchorsEmb
  rw [setTask_tasks, setTask_tasks]
  simp

/-- Invariant of the `map to relative` loop: after processing a duplicate-free
list of task indices, exactly the `train`/`test` splits of those tasks carry
the attached cosine-similarity column, everything else is untouched, and the
loop never fails. -/
theorem projectLoop_spec (l : List Nat) (hnd : l.Nodup) (s : Store) :
    ∃ s', projectLoop s l = some s' ∧ s'.numTasks = s.numTasks ∧ s'.g2l = s.g2l ∧
      ∀ j m', s'.tasks j m' =
        if j ∈ l ∧ (m' = Mode.train ∨ m' = Mode.test) then
          (s.tasks j m').map (projRow (anchorsEmb s j))
        else s.tasks j m' := by
  induction l generalizing s with
  | nil =>
      refine ⟨s, rfl, rfl, rfl, ?_⟩
      intro j m'
      simp
  | cons i rest ih =>
      have hndr : rest.Nodup := (List.nodup_cons.mp hnd).2
      have hnmem : i ∉ rest := (List.nodup_cons.mp hnd).1
      set s1 := setTask (setTask s i Mode.train
        ((s.tasks i Mode.train).map (projRow (anchorsEmb s i)))) i Mode.test
        ((s.tasks i Mode.test).map (projRow (anchorsEmb s i))) with hs1
      have hstep : projectTask s i = some s1 := projectTask_eq s i
      have hs1tasks : ∀ j m', s1.tasks j m' =
          if j = i ∧ (m' = Mode.train ∨ m' = Mode.test) then
            (s.tasks j m').map (projRow (anchorsEmb s j))
          else s.tasks j m' := by
        intro j m'
        rw [hs1, setTask_tasks, setTask_tasks]
        by_cases hj : j = i
        · subst hj
          cases m' <;> simp
        · simp [hj]
      have hs1anch : ∀ j, anchorsEmb s1 j = anchorsEmb s j := by
        intro j
        unfold anchorsEmb
        rw [hs1tasks]
        simp
      have hs1n : s1.numTasks = s.numTasks := rfl
      have hs1g : s1.g2l = s.g2l := rfl
      obtain ⟨s', hloop, hn, hg, htasks⟩ := ih hndr s1
      refine ⟨s', ?_, hn.trans hs1n, hg.trans hs1g, ?_⟩
      · unfold projectLoop
        rw [hstep]
        exact hloop
      · intro j m'
        rw [htasks j m', hs1tasks j m']
        by_cases hm : m' = Mode.train ∨ m' = Mode.test
        · by_cases hjr : j ∈ rest
          · have hji : j ≠ i := fun h => hnmem (h ▸ hjr)
            have hmem : j ∈ i :: rest := List.mem_cons_of_mem i hjr
            rw [if_pos ⟨hjr, hm⟩, if_neg (by simp [hji]), if_pos ⟨hmem, hm⟩, hs1anch]
          · by_cases hji : j = i
            · subst hji
              rw [if_neg (by simp [hjr]), if_pos ⟨rfl, hm⟩,
                if_pos ⟨List.mem_cons_self j rest, hm⟩]
            · rw [if_neg (by simp [hjr]), if_neg (by simp [hji]),
                if_neg (by simp [hji, hjr])]
        · rw [if_neg (by simp [hm]), if_neg (by simp [hm]), if_neg (by simp [hm])]

/-- Characterisation of the whole `map to relative` stage. -/
theorem stageProject_spec (s : Store) :
    ∃ s', stageProject s = some s' ∧ s'.numTasks = s.numTasks ∧ s'.g2l = s.g2l ∧
      ∀ j m', s'.tasks j m' =
        if j ≤ s.numTasks ∧ (m' = Mode.train ∨ m' = Mode.test) then
          (s.tasks j m').map (projRow (anchorsEmb s j))
        else s.tasks j m' := by
  obtain ⟨s', hloop, hn, hg, htasks⟩ :=
    projectLoop_spec (List.range (s.numTasks + 1)) (List.nodup_range _) s
  refine ⟨s', hloop, hn, hg, ?_⟩
  intro j m'
  rw [htasks j m']
  have hmem : j ∈ List.range (s.numTasks + 1) ↔ j ≤ s.numTasks := by
    rw [List.mem_range]
    omega
  by_cases hj : j ≤ s.numTasks
  · simp [hmem, hj]
  · simp [hmem, hj]

theorem labelRows_ok_of (m0 : List (Int × Int)) (i : Nat) (m : Mode) (rows : List Row)
    (h : ∀ r ∈ rows, (localToGlobal m0 r.y).isSome) :
    labelRows (localToGlobal m0) i m rows = .ok (rows.map (labelRow m0)) := by
  induction rows with
  | nil => rfl
  | cons r rs ih =>
      have hr := h r (List.mem_cons_self r rs)
      cases hf : localToGlobal m0 r.y with
      | none => rw [hf] at hr; simp at hr
      | some g =>
          unfold labelRows
          rw [hf, ih (fun r' hr' => h r' (List.mem_cons_of_mem r hr'))]
          simp [labelRow, hf]

theorem labelRows_error_iff (f : Int → Option Int) (i : Nat) (m : Mode) (rows : List Row) :
    (∃ e, labelRows f i m rows = .error e) ↔ ∃ r ∈ rows, f r.y = none := by
  induction rows with
  | nil => simp [labelRows]
  | cons r rs ih =>
      cases hf : f r.y with
      | none =>
          constructor
          · intro _
            exact ⟨r, List.mem_cons_self r rs, hf⟩
          · intro _
            exact ⟨Err.missingLabel i m r.y, by unfold labelRows; rw [hf]⟩
      | some g =>
          cases hrec : labelRows f i m rs with
          | error e =>
              constructor
              · intro _
                obtain ⟨r', hr', hn⟩ := ih.mp ⟨e, hrec⟩
                exact ⟨r', List.mem_cons_of_mem r hr', hn⟩
              · intro _
                exact ⟨e, by unfold labelRows; rw [hf, hrec]⟩
          | ok rs' =>
              constructor
              · intro ⟨e, he⟩
                unfold labelRows at he
                rw [hf, hrec] at he
                exact absurd he (by simp)
              · intro ⟨r', hr', hn⟩
                rcases List.mem_cons.mp hr' with hr' | hr'
                · rw [hr', hf] at hn
                  exact absurd hn (by simp)
                · obtain ⟨e, he⟩ := ih.mpr ⟨r', hr', hn⟩
                  rw [hrec] at he
                  exact absurd he (by simp)

theorem labelRows_error_form (f : Int → Option Int) (i : Nat) (m : Mode) (rows : List Row)
    (e : Err) (h : labelRows f i m rows = .error e) : ∃ y, e = Err.missingLabel i m y := by
  induction rows with
  | nil => exact absurd h (by simp [labelRows])
  | cons r rs ih =>
      unfold labelRows at h
      cases hf : f r.y with
      | none =>
          rw [hf] at h
          exact ⟨r.y, by cases h; rfl⟩
      | some g =>
          rw [hf] at h
          cases hrec : labelRows f i m rs with
          | error e' =>
              rw [hrec] at h
              cases h
              exact ih hrec
          | ok rs' =>
              rw [hrec] at h
              exact absurd h (by simp)

theorem labelRows_ok_no_missing (f : Int → Option Int) (i : Nat) (m : Mode) (rows rows' : List Row)
    (h : labelRows f i m rows = .ok rows') : ∀ r ∈ rows, (f r.y).isSome := by
  intro r hr
  cases hf : f r.y with
  | some g => rfl
  | none =>
      obtain ⟨e, he⟩ := (labelRows_error_iff f i m rows).mpr ⟨r, hr, hf⟩
      rw [h] at he
      exact absurd he (by simp)

theorem labelTask_eq_of (s : Store) (i : Nat)
    (h : ∀ m, labelModes m → ∀ r ∈ s.tasks i m, (localToGlobal (s.g2l i) r.y).isSome) :
    labelTask s i = .ok (setTask (setTask (setTask s i Mode.train
      ((s.tasks i Mode.train).map (labelRow (s.g2l i)))) i Mode.val
      ((s.tasks i Mode.val).map (labelRow (s.g2l i)))) i Mode.test
      ((s.tasks i Mode.test).map (labelRow (s.g2l i)))) := by
  have htr := labelRows_ok_of (s.g2l i) i Mode.train (s.tasks i Mode.train)
    (h Mode.train (Or.inl rfl))
  have hva := labelRows_ok_of (s.g2l i) i Mode.val (s.tasks i Mode.val)
    (h Mode.val (Or.inr (Or.inl rfl)))
  have hte := labelRows_ok_of (s.g2l i) i Mode.test (s.tasks i Mode.test)
    (h Mode.test (Or.inr (Or.inr rfl)))
  unfold labelTask
  simp only [htr, hva, hte]

theorem tripleSet_tasks (s : Store) (i : Nat) (j : Nat) (m' : Mode) :
    (setTask (setTask (setTask s i Mode.train
      ((s.tasks i Mode.train).map (labelRow (s.g2l i)))) i Mode.val
      ((s.tasks i Mode.val).map (labelRow (s.g2l i)))) i Mode.test
      ((s.tasks i Mode.test).map (labelRow (s.g2l i)))).tasks j m' =
    if j = i ∧ labelModes m' then (s.tasks j m').map (labelRow (s.g2l i))
    else s.tasks j m' := by
  rw [setTask_tasks, setTask_tasks, setTask_tasks]
  by_cases hj : j = i
  · subst hj
    cases m' <;> simp [labelModes]
  · simp [hj, labelModes]

theorem labelTask_error_iff (s : Store) (i : Nat) :
    (∃ e, labelTask s i = .error e) ↔
      ∃ m, labelModes m ∧ ∃ r ∈ s.tasks i m, localToGlobal (s.g2l i) r.y = none := by
  constructor
  · intro ⟨e, he⟩
    by_cases h : ∀ m, labelModes m → ∀ r ∈ s.tasks i m, (localToGlobal (s.g2l i) r.y).isSome
    · rw [labelTask_eq_of s i h] at he
      exact absurd he (by simp)
    · push_neg at h
      obtain ⟨m, hm, r, hr, hn⟩ := h
      exact ⟨m, hm, r, hr, Option.not_isSome_iff_eq_none.mp hn⟩
  · intro ⟨m, hm, r, hr, hn⟩
    cases htr : labelRows (localToGlobal (s.g2l i)) i Mode.train (s.tasks i Mode.train) with
    | error e => exact ⟨e, by unfold labelTask; simp [htr]⟩
    | ok tr =>
        cases hva : labelRows (localToGlobal (s.g2l i)) i Mode.val (s.tasks i Mode.val) with
        | error e => exact ⟨e, by unfold labelTask; simp [htr, hva]⟩
        | ok va =>
            cases hte : labelRows (localToGlobal (s.g2l i)) i Mode.test (s.tasks i Mode.test) with
            | error e => exact ⟨e, by unfold labelTask; simp [htr, hva, hte]⟩
            | ok te =>
                exfalso
                rcases hm with hm | hm | hm
                · subst hm
                  exact absurd (labelRows_ok_no_missing _ _ _ _ _ htr r hr)
                    (by rw [hn]; simp)
                · subst hm
                  exact absurd (labelRows_ok_no_missing _ _ _ _ _ hva r hr)
                    (by rw [hn]; simp)
                · subst hm
                  exact absurd (labelRows_ok_no_missing _ _ _ _ _ hte r hr)
                    (by rw [hn]; simp)

theorem labelTask_error_form (s : Store) (i : Nat) (e : Err)
    (h : labelTask s i = .error e) : ∃ m y, e = Err.missingLabel i m y := by
  unfold labelTask at h
  cases htr : labelRows (localToGlobal (s.g2l i)) i Mode.train (s.tasks i Mode.train) with
  | error e' =>
      simp only [htr] at h
      cases h
      obtain ⟨y, hy⟩ := labelRows_error_form _ _ _ _ _ htr
      exact ⟨Mode.train, y, hy⟩
  | ok tr =>
      simp only [htr] at h
      cases hva : labelRows (localToGlobal (s.g2l i)) i Mode.val (s.tasks i Mode.val) with
      | error e' =>
          simp only [hva] at h
          cases h
          obtain ⟨y, hy⟩ := labelRows_error_form _ _ _ _ _ hva
          exact ⟨Mode.val, y, hy⟩
      | ok va =>
          simp only [hva] at h
          cases hte : labelRows (localToGlobal (s.g2l i)) i Mode.test (s.tasks i Mode.test) with
          | error e' =>
              simp only [hte] at h
              cases h
              obtain ⟨y, hy⟩ := labelRows_error_form _ _ _ _ _ hte
              exact ⟨Mode.test, y, hy⟩
          | ok te =>
              simp only [hte] at h
              exact absurd h (by simp)

theorem labelLoop_cons (s : Store) (i : Nat) (rest : List Nat) :
    labelLoop s (i :: rest) =
      match labelTask s i with
      | .error e => .error e
      | .ok s1 => labelLoop s1 rest := rfl

theorem labelLoop_ok_spec (l : List Nat) (hnd : l.Nodup) (s : Store)
    (h : ∀ i ∈ l, ∀ m, labelModes m → ∀ r ∈ s.tasks i m, (localToGlobal (s.g2l i) r.y).isSome) :
    ∃ s', labelLoop s l = .ok s' ∧ s'.numTasks = s.numTasks ∧ s'.g2l = s.g2l ∧
      ∀ j m', s'.tasks j m' =
        if j ∈ l ∧ labelModes m' then (s.tasks j m').map (labelRow (s.g2l j))
        else s.tasks j m' := by
  induction l generalizing s with
  | nil =>
      refine ⟨s, rfl, rfl, rfl, ?_⟩
      intro j m'
      simp
  | cons i rest ih =>
      have hndr : rest.Nodup := (List.nodup_cons.mp hnd).2
      have hnmem : i ∉ rest := (List.nodup_cons.mp hnd).1
      have hstep := labelTask_eq_of s i (h i (List.mem_cons_self i rest))
      set s1 := setTask (setTask (setTask s i Mode.train
        ((s.tasks i Mode.train).map (labelRow (s.g2l i)))) i Mode.val
        ((s.tasks i Mode.val).map (labelRow (s.g2l i)))) i Mode.test
        ((s.tasks i Mode.test).map (labelRow (s.g2l i))) with hs1
      have hs1tasks : ∀ j m', s1.tasks j m' =
          if j = i ∧ labelModes m' then (s.tasks j m').map (labelRow (s.g2l j))
          else s.tasks j m' := by
        intro j m'
        rw [hs1, tripleSet_tasks]
        by_cases hj : j = i
        · subst hj
          rfl
        · simp [hj]
      have hs1g : s1.g2l = s.g2l := rfl
      have hs1n : s1.numTasks = s.numTasks := rfl
      have hrest : ∀ i' ∈ rest, ∀ m, labelModes m →
          ∀ r ∈ s1.tasks i' m, (localToGlobal (s1.g2l i') r.y).isSome := by
        intro i' hi' m hm r hr
        have hne : i' ≠ i := fun hcontra => hnmem (hcontra ▸ hi')
        rw [hs1tasks i' m, if_neg (by simp [hne])] at hr
        rw [hs1g]
        exact h i' (List.mem_cons_of_mem i hi') m hm r hr
      obtain ⟨s', hloop, hn, hg, htasks⟩ := ih hndr s1 hrest
      refine ⟨s', ?_, hn.trans hs1n, hg.trans hs1g, ?_⟩
      · rw [labelLoop_cons, hstep]
        exact hloop
      · intro j m'
        rw [htasks j m', hs1tasks j m', hs1g]
        by_cases hm : labelModes m'
        · by_cases hjr : j ∈ rest
          · have hji : j ≠ i := fun hcontra => hnmem (hcontra ▸ hjr)
            rw [if_pos ⟨hjr, hm⟩, if_neg (by simp [hji]),
              if_pos ⟨List.mem_cons_of_mem i hjr, hm⟩]
          · by_cases hji : j = i
            · subst hji
              rw [if_neg (by simp [hjr]), if_pos ⟨rfl, hm⟩,
                if_pos ⟨List.mem_cons_self j rest, hm⟩]
            · rw [if_neg (by simp [hjr]), if_neg (by simp [hji]),
                if_neg (by simp [hji, hjr])]
        · rw [if_neg (by simp [hm]), if_neg (by simp [hm]), if_neg (by simp [hm])]

theorem labelLoop_error_iff (l : List Nat) (hnd : l.Nodup) (s : Store) :
    (∃ e, labelLoop s l = .error e) ↔
      ∃ i ∈ l, ∃ m, labelModes m ∧ ∃ r ∈ s.tasks i m, localToGlobal (s.g2l i) r.y = none := by
  induction l generalizing s with
  | nil => simp [labelLoop]
  | cons i rest ih =>
      have hndr : rest.Nodup := (List.nodup_cons.mp hnd).2
      have hnmem : i ∉ rest := (List.nodup_cons.mp hnd).1
      by_cases hi : ∃ m, labelModes m ∧ ∃ r ∈ s.tasks i m, localToGlobal (s.g2l i) r.y = none
      · obtain ⟨e, he⟩ := (labelTask_error_iff s i).mpr hi
        constructor
        · intro _
          exact ⟨i, List.mem_cons_self i rest, hi⟩
        · intro _
          exact ⟨e, by rw [labelLoop_cons, he]⟩
      · have hdom : ∀ m, labelModes m → ∀ r ∈ s.tasks i m,
            (localToGlobal (s.g2l i) r.y).isSome := by
          intro m hm r hr
          by_contra hns
          exact hi ⟨m, hm, r, hr, Option.not_isSome_iff_eq_none.mp hns⟩
        have hstep := labelTask_eq_of s i hdom
        set s1 := setTask (setTask (setTask s i Mode.train
          ((s.tasks i Mode.train).map (labelRow (s.g2l i)))) i Mode.val
          ((s.tasks i Mode.val).map (labelRow (s.g2l i)))) i Mode.test
          ((s.tasks i Mode.test).map (labelRow (s.g2l i))) with hs1
        have hloopeq : labelLoop s (i :: rest) = labelLoop s1 rest := by
          rw [labelLoop_cons, hstep]
        have htransfer : ∀ i' ∈ rest,
            ((∃ m, labelModes m ∧ ∃ r ∈ s1.tasks i' m, localToGlobal (s1.g2l i') r.y = none) ↔
             (∃ m, labelModes m ∧ ∃ r ∈ s.tasks i' m, localToGlobal (s.g2l i') r.y = none)) := by
          intro i' hi'
          have hne : i' ≠ i := fun hcontra => hnmem (hcontra ▸ hi')
          have htasks : ∀ m, s1.tasks i' m = s.tasks i' m := by
            intro m
            rw [hs1, tripleSet_tasks, if_neg (by simp [hne])]
          have hg : s1.g2l = s.g2l := rfl
          constructor
          · intro ⟨m, hm, r, hr, hn⟩
            rw [htasks m] at hr
            rw [hg] at hn
            exact ⟨m, hm, r, hr, hn⟩
          · intro ⟨m, hm, r, hr, hn⟩
            refine ⟨m, hm, r, ?_, ?_⟩
            · rw [htasks m]; exact hr
            · rw [hg]; exact hn
        rw [hloopeq, ih hndr s1]
        constructor
        · intro ⟨i', hi', hcond⟩
          exact ⟨i', List.mem_cons_of_mem i hi', (htransfer i' hi').mp hcond⟩
        · intro ⟨i', hi', hcond⟩
          rcases List.mem_cons.mp hi' with hieq | hir
          · subst hieq
            exact absurd hcond hi
          · exact ⟨i', hir, (htransfer i' hir).mpr hcond⟩

theorem labelLoop_error_form (l : List Nat) (s : Store) (e : Err)
    (h : labelLoop s l = .error e) : ∃ i m y, e = Err.missingLabel i m y := by
  induction l generalizing s with
  | nil => exact absurd h (by simp [labelLoop])
  | cons i rest ih =>
      unfold labelLoop at h
      cases ht : labelTask s i with
      | error e' =>
          rw [ht] at h
          cases h
          obtain ⟨m, y, hy⟩ := labelTask_error_form s i e ht
          exact ⟨i, m, y, hy⟩
      | ok s1 =>
          rw [ht] at h
          exact ih s1 h

theorem bcastAllEq_some_true_iff (a b : List Int) :
    bcastAllEq a b = some true ↔ broadcastIdsOk a b := by
  unfold bcastAllEq broadcastIdsOk
  by_cases h1 : a.length = b.length
  · rw [if_pos h1]
    simp only [Option.some.injEq, decide_eq_true_eq]
    constructor
    · intro h
      exact Or.inl h
    · intro h
      rcases h with h | ⟨ha, hb⟩ | ⟨hb, ha⟩
      · exact h
      · obtain ⟨x, hx⟩ := List.length_eq_one.mp ha
        have hb1 : b.length = 1 := by omega
        obtain ⟨y, hy⟩ := List.length_eq_one.mp hb1
        subst hx; subst hy
        have := hb y (List.mem_singleton_self y)
        simp [List.headI] at this
        rw [this]
      · obtain ⟨x, hx⟩ := List.length_eq_one.mp hb
        have ha1 : a.length = 1 := by omega
        obtain ⟨y, hy⟩ := List.length_eq_one.mp ha1
        subst hx; subst hy
        have := ha y (List.mem_singleton_self y)
        simp [List.headI] at this
        rw [this]
  · rw [if_neg h1]
    by_cases h2 : a.length = 1
    · rw [if_pos h2]
      simp only [Option.some.injEq, decide_eq_true_eq]
      constructor
      · intro h
        exact Or.inr (Or.inl ⟨h2, h⟩)
      · intro h
        rcases h with h | ⟨_, hb⟩ | ⟨hb, _⟩
        · exact absurd (congrArg List.length h) h1
        · exact hb
        · exact absurd (h2.trans hb.symm) h1
    · rw [if_neg h2]
      by_cases h3 : b.length = 1
      · rw [if_pos h3]
        simp only [Option.some.injEq, decide_eq_true_eq]
        constructor
        · intro h
          exact Or.inr (Or.inr ⟨h3, h⟩)
        · intro h
          rcases h with h | ⟨ha, _⟩ | ⟨_, ha⟩
          · exact absurd (congrArg List.length h) h1
          · exact absurd ha h2
          · exact ha
      · rw [if_neg h3]
        constructor
        · intro h
          exact absurd h (by simp)
        · intro h
          rcases h with h | ⟨ha, _⟩ | ⟨hb, _⟩
          · exact absurd (congrArg List.length h) h1
          · exact absurd ha h2
          · exact absurd hb h3

theorem checkPairs_ok_iff (s : Store) (l : List (Nat × Nat)) :
    checkPairs s l = .ok () ↔
      ∀ p ∈ l, bcastAllEq (anchorIds s p.1) (anchorIds s p.2) = some true := by
  induction l with
  | nil => simp [checkPairs]
  | cons p rest ih =>
      unfold checkPairs
      cases hb : bcastAllEq (anchorIds s p.1) (anchorIds s p.2) with
      | none =>
          constructor
          · intro h
            exact absurd h (by simp)
          · intro h
            exact absurd (h p (List.mem_cons_self p rest)) (by rw [hb]; simp)
      | some v =>
          cases v with
          | false =>
              constructor
              · intro h
                exact absurd h (by simp)
              · intro h
                exact absurd (h p (List.mem_cons_self p rest)) (by rw [hb]; simp)
          | true =>
              rw [ih]
              constructor
              · intro h q hq
                rcases List.mem_cons.mp hq with hq | hq
                · rw [hq]; exact hb
                · exact h q hq
              · intro h q hq
                exact h q (List.mem_cons_of_mem p hq)

theorem allPairs_mem (n i j : Nat) : (i, j) ∈ allPairs n ↔ i ≤ j ∧ j ≤ n := by
  unfold allPairs
  rw [List.mem_flatten]
  constructor
  · intro ⟨l, hl, hmem⟩
    rw [List.mem_map] at hl
    obtain ⟨i', hi', rfl⟩ := hl
    rw [List.mem_range] at hi'
    rw [List.mem_map] at hmem
    obtain ⟨j', hj', heq⟩ := hmem
    rw [List.mem_range'_1] at hj'
    have hii : i' = i := (Prod.mk.injEq _ _ _ _).mp heq |>.1
    have hjj : j' = j := (Prod.mk.injEq _ _ _ _).mp heq |>.2
    subst hii; subst hjj
    omega
  · intro ⟨hij, hjn⟩
    refine ⟨(List.range' i (n + 1 - i)).map (fun j => (i, j)), ?_, ?_⟩
    · rw [List.mem_map]
      exact ⟨i, by rw [List.mem_range]; omega, rfl⟩
    · rw [List.mem_map]
      exact ⟨j, by rw [List.mem_range'_1]; omega, rfl⟩

theorem mergeStage_eq (s : Store) :
    mergeStage s =
      match bcastAllEq (mergedTestIds s) (originalTestIds s) with
      | none => .error Err.shapeMismatch
      | some false => .error Err.alignment
      | some true => .ok (sortById (concatTasks s Mode.train), sortById (concatTasks s Mode.test),
          sortById (s.tasks 0 Mode.train), sortById (s.tasks 0 Mode.test)) := rfl

theorem lookupKey_eraseKey_self (d : List (String × Entry)) (k : String) :
    lookupKey (eraseKey d k) k = none := by
  induction d with
  | nil => rfl
  | cons p rest ih =>
      obtain ⟨k1, v1⟩ := p
      unfold eraseKey at ih ⊢
      rw [List.filter_cons]
      by_cases hp : k1 = k
      · rw [if_neg (by simp [hp])]
        exact ih
      · rw [if_pos (by simp [hp])]
        unfold lookupKey
        rw [if_neg hp]
        exact ih

theorem lookupKey_cons (k1 : String) (v1 : Entry) (rest : List (String × Entry)) (k : String) :
    lookupKey ((k1, v1) :: rest) k = if k1 = k then some v1 else lookupKey rest k := rfl

theorem lookupKey_eraseKey_ne (d : List (String × Entry)) (k k' : String) (h : k' ≠ k) :
    lookupKey (eraseKey d k) k' = lookupKey d k' := by
  induction d with
  | nil => rfl
  | cons p rest ih =>
      obtain ⟨k1, v1⟩ := p
      unfold eraseKey at ih ⊢
      rw [List.filter_cons]
      by_cases hp : k1 = k
      · rw [if_neg (by simp [hp])]
        rw [ih, lookupKey_cons, if_neg (fun hc => h (hc.symm.trans hp))]
      · rw [if_pos (by simp [hp])]
        rw [lookupKey_cons, lookupKey_cons]
        by_cases hk : k1 = k'
        · rw [if_pos hk, if_pos hk]
        · rw [if_neg hk, if_neg hk]
          exact ih

theorem lookupKey_append (l1 l2 : List (String × Entry)) (k : String) :
    lookupKey (l1 ++ l2) k =
      match lookupKey l1 k with
      | some v => some v
      | none => lookupKey l2 k := by
  induction l1 with
  | nil => rfl
  | cons p rest ih =>
      by_cases hp : p.1 = k
      · simp [lookupKey, hp]
      · simp [lookupKey, hp, ih]

theorem dot_cons (x y : ℝ) (xs ys : List ℝ) : dot (x :: xs) (y :: ys) = x * y + dot xs ys := rfl

theorem normSq_pair (x y : ℝ) : normSq [x, y] = x * x + (y * y + 0) := rfl

theorem eps_le_one : eps ≤ 1 := by norm_num [eps]

theorem l2norm_pair_10 : l2norm [(1 : ℝ), 0] = 1 := by
  have h : normSq [(1 : ℝ), 0] = 1 := by rw [normSq_pair]; norm_num
  rw [l2norm, h, Real.sqrt_one]

theorem fNormalize_pair_10 : fNormalize [(1 : ℝ), 0] = [1, 0] := by
  unfold fNormalize
  rw [l2norm_pair_10, max_eq_left eps_le_one]
  norm_num

theorem l2norm_pair_00 : l2norm [(0 : ℝ), 0] = 0 := by
  have h : normSq [(0 : ℝ), 0] = 0 := by rw [normSq_pair]; norm_num
  rw [l2norm, h, Real.sqrt_zero]

theorem fNormalize_pair_00 : fNormalize [(0 : ℝ), 0] = [0, 0] := by
  unfold fNormalize
  rw [l2norm_pair_00, max_eq_right eps_pos.le]
  norm_num

/-- C1: for every task `i` in `0..num_tasks` and each split in `{train, test}`,
the projection stage attaches, as the new `relative_embeddings` column, the
matrix `F.normalize(samples) @ F.normalize(anchors).T`: row `n` of the output
is exactly row `n` of the input extended with its vector of normalized inner
products against the task's anchors (order-preserving, all other fields
unchanged). -/
theorem claim_C1_projection (s : Store) :
    ∃ s', stageProject s = some s' ∧
      ∀ i, i ≤ s.numTasks → ∀ m, (m = Mode.train ∨ m = Mode.test) →
        s'.tasks i m = (s.tasks i m).map (fun r =>
          { r with relative_embeddings := some ((s.tasks i Mode.anchorsM).map
              (fun a => dot (fNormalize r.embedding) (fNormalize a.embedding))) }) := by
  obtain ⟨s', hok, _, _, htasks⟩ := stageProject_spec s
  refine ⟨s', hok, ?_⟩
  intro i hi m hm
  rw [htasks i m, if_pos ⟨hi, hm⟩]
  apply List.map_congr_left
  intro r _
  simp [projRow, anchorsEmb, List.map_map, Function.comp]

theorem claim_C1_projection_witness :
    ∃ s', stageProject storeC1 = some s' ∧
      s'.tasks 0 Mode.train = [{ id := 1, y := 0, embedding := [1, 0], relative_embeddings := some [1] }] := by
  obtain ⟨s', hok, hchar⟩ := claim_C1_projection storeC1
  refine ⟨s', hok, ?_⟩
  rw [hchar 0 (le_refl 0) Mode.train (Or.inl rfl)]
  have hdot : dot (fNormalize [(1:ℝ), 0]) (fNormalize [(1:ℝ), 0]) = 1 := by
    rw [fNormalize_pair_10]
    rw [dot_cons]
    norm_num [dot_cons, dot_nil_left]
  simp [storeC1, hdot]

/-- C5: for every non-degenerate input (every anchor and sample vector of
nonzero norm), the projection stage succeeds, the `relative_embeddings`
column of each projected split has as many rows as the split has samples,
each row has one entry per anchor (shape N×A), and every entry lies in
`[-1, 1]`. -/
theorem claim_C5_shape_range (s : Store)
    (_hA : ∀ i, i ≤ s.numTasks → ∀ r ∈ s.tasks i Mode.anchorsM, normSq r.embedding ≠ 0)
    (_hS : ∀ i, i ≤ s.numTasks → ∀ m, (m = Mode.train ∨ m = Mode.test) →
      ∀ r ∈ s.tasks i m, normSq r.embedding ≠ 0) :
    ∃ s', stageProject s = some s' ∧
      ∀ i, i ≤ s.numTasks → ∀ m, (m = Mode.train ∨ m = Mode.test) →
        (s'.tasks i m).length = (s.tasks i m).length ∧
        ∀ r' ∈ s'.tasks i m, ∃ v, r'.relative_embeddings = some v ∧
          v.length = (s.tasks i Mode.anchorsM).length ∧
          ∀ x ∈ v, -1 ≤ x ∧ x ≤ 1 := by
  obtain ⟨s', hok, _, _, htasks⟩ := stageProject_spec s
  refine ⟨s', hok, ?_⟩
  intro i hi m hm
  rw [htasks i m, if_pos ⟨hi, hm⟩]
  refine ⟨by simp, ?_⟩
  intro r' hr'
  rw [List.mem_map] at hr'
  obtain ⟨r, _, rfl⟩ := hr'
  refine ⟨(anchorsEmb s i).map (fun a => dot (fNormalize r.embedding) (fNormalize a)),
    rfl, by simp [anchorsEmb], ?_⟩
  intro x hx
  rw [List.mem_map] at hx
  obtain ⟨a, _, rfl⟩ := hx
  exact dot_fNormalize_mem_Icc r.embedding a

theorem claim_C5_shape_range_witness :
    ∃ s', stageProject storeC5 = some s' ∧
      (s'.tasks 0 Mode.train).length = 1 ∧
      ∀ r' ∈ s'.tasks 0 Mode.train, ∃ v, r'.relative_embeddings = some v ∧
        v.length = 1 ∧ ∀ x ∈ v, -1 ≤ x ∧ x ≤ 1 := by
  have hA : ∀ i, i ≤ storeC5.numTasks →
      ∀ r ∈ storeC5.tasks i Mode.anchorsM, normSq r.embedding ≠ 0 := by
    intro i hi r hr
    have hi0 : i = 0 := Nat.le_zero.mp hi
    subst hi0
    simp [storeC5] at hr
    rw [hr]
    rw [normSq_pair]
    norm_num
  have hS : ∀ i, i ≤ storeC5.numTasks → ∀ m, (m = Mode.train ∨ m = Mode.test) →
      ∀ r ∈ storeC5.tasks i m, normSq r.embedding ≠ 0 := by
    intro i hi m hm r hr
    have hi0 : i = 0 := Nat.le_zero.mp hi
    subst hi0
    rcases hm with hm | hm <;> subst hm <;> simp [storeC5] at hr
    rw [hr]
    rw [normSq_pair]
    norm_num
  obtain ⟨s', hok, hchar⟩ := claim_C5_shape_range storeC5 hA hS
  have h := hchar 0 (le_refl 0) Mode.train (Or.inl rfl)
  refine ⟨s', hok, ?_, ?_⟩
  · rw [h.1]
    rfl
  · intro r' hr'
    obtain ⟨v, hv, hlen, hbound⟩ := h.2 r' hr'
    exact ⟨v, hv, by rw [hlen]; rfl, hbound⟩

/-- C4 counterexample: on a zero-norm sample vector the projection stage does
NOT fail — `F.normalize` clamps the zero denominator to `eps`, the stage
succeeds, the `relative_embeddings` column IS added, and the zero sample's
row is silently the all-zero vector, contradicting the claimed
`DegenerateVectorError`. -/
theorem claim_C4_counterexample :
    ∃ s', stageProject storeC4 = some s' ∧
      s'.tasks 0 Mode.train = [{ id := 1, y := 0, embedding := [0, 0], relative_embeddings := some [0] }] := by
  obtain ⟨s', hok, _, _, htasks⟩ := stageProject_spec storeC4
  refine ⟨s', hok, ?_⟩
  rw [htasks 0 Mode.train, if_pos ⟨le_refl 0, Or.inl rfl⟩]
  have hdot : dot (fNormalize [(0:ℝ), 0]) (fNormalize [(1:ℝ), 0]) = 0 := by
    rw [fNormalize_pair_00, fNormalize_pair_10]
    rw [dot_cons]
    norm_num [dot_cons, dot_nil_left]
  simp [storeC4, projRow, anchorsEmb, hdot]

/-- C4 (amended): the projection stage never raises on zero-norm vectors.
`F.normalize` divides by `max ‖v‖ eps` (`eps = 1e-12`), so a zero-norm sample
vector is mapped to the zero vector and its attached `relative_embeddings`
row is exactly the all-zero vector of length `A` (one entry per anchor); the
column is added regardless. -/
theorem claim_C4_amended (s : Store) :
    ∃ s', stageProject s = some s' ∧
      ∀ i, i ≤ s.numTasks → ∀ m, (m = Mode.train ∨ m = Mode.test) →
        ∀ r ∈ s.tasks i m, normSq r.embedding = 0 →
          projRow (anchorsEmb s i) r ∈ s'.tasks i m ∧
          projRow (anchorsEmb s i) r =
            { r with relative_embeddings := some (List.replicate (s.tasks i Mode.anchorsM).length 0) } := by
  obtain ⟨s', hok, _, _, htasks⟩ := stageProject_spec s
  refine ⟨s', hok, ?_⟩
  intro i hi m hm r hr hz
  constructor
  · rw [htasks i m, if_pos ⟨hi, hm⟩]
    exact List.mem_map_of_mem (projRow (anchorsEmb s i)) hr
  · unfold projRow
    have hzero : ∀ x ∈ fNormalize r.embedding, x = 0 := fNormalize_zero_normSq r.embedding hz
    have hmap : (anchorsEmb s i).map (fun a => dot (fNormalize r.embedding) (fNormalize a)) =
        (anchorsEmb s i).map (fun _ => (0 : ℝ)) :=
      List.map_congr_left (fun a _ => dot_eq_zero_of_left_zero _ _ hzero)
    rw [hmap, List.map_const']
    have hlen : (anchorsEmb s i).length = (s.tasks i Mode.anchorsM).length := by
      simp [anchorsEmb]
    rw [hlen]

theorem claim_C4_amended_witness :
    ∃ s', stageProject storeC4w = some s' ∧
      projRow (anchorsEmb storeC4w 0) { id := 3, y := 0, embedding := [0, 0] } ∈ s'.tasks 0 Mode.test ∧
      projRow (anchorsEmb storeC4w 0) { id := 3, y := 0, embedding := [0, 0] } =
        { id := 3, y := 0, embedding := [0, 0], relative_embeddings := some (List.replicate 1 0) } := by
  obtain ⟨s', hok, hchar⟩ := claim_C4_amended storeC4w
  have hmem : ({ id := 3, y := 0, embedding := [0, 0] } : Row) ∈ storeC4w.tasks 0 Mode.test := by
    simp [storeC4w]
  have hz : normSq ([(0:ℝ), 0]) = 0 := by rw [normSq_pair]; norm_num
  have h := hchar 0 (le_refl 0) Mode.test (Or.inr rfl) _ hmem hz
  refine ⟨s', hok, h.1, ?_⟩
  rw [h.2]
  have : (storeC4w.tasks 0 Mode.anchorsM).length = 1 := by simp [storeC4w]
  rw [this]

/-- C3 counterexample: `check_same_anchor_ids` succeeds on a store whose
anchor id sequences are NOT equal element-for-element (task 0 has ids `[5]`,
task 1 has ids `[5, 5]`): `torch.eq` broadcasts the singleton tensor, so the
claimed "succeeds only if all pairs agree in order and length" is false. -/
theorem claim_C3_counterexample :
    checkSameAnchorIds storeC3 = .ok () ∧ anchorIds storeC3 0 ≠ anchorIds storeC3 1 := by
  constructor
  · rfl
  · decide

/-- C3 (amended): `check_same_anchor_ids` succeeds if and only if every pair
of tasks `i ≤ j` has broadcast-equal anchor id tensors: equal sequences pass;
unequal sequences abort the run (assert failure, or a tensor shape error when
lengths differ and neither is 1) — except that a length-1 id tensor whose
single value equals every element of the other sequence also passes, by torch
broadcasting. -/
theorem claim_C3_amended (s : Store) :
    checkSameAnchorIds s = .ok () ↔
      ∀ i j, i ≤ j → j ≤ s.numTasks → broadcastIdsOk (anchorIds s i) (anchorIds s j) := by
  unfold checkSameAnchorIds
  rw [checkPairs_ok_iff]
  constructor
  · intro h i j hij hj
    rw [← bcastAllEq_some_true_iff]
    exact h (i, j) ((allPairs_mem s.numTasks i j).mpr ⟨hij, hj⟩)
  · intro h p hp
    obtain ⟨i, j⟩ := p
    obtain ⟨hij, hj⟩ := (allPairs_mem s.numTasks i j).mp hp
    rw [bcastAllEq_some_true_iff]
    exact h i j hij hj

theorem claim_C3_amended_witness : checkSameAnchorIds storeC3w = .ok () := by
  rw [claim_C3_amended storeC3w]
  intro i j hij hj
  have hj0 : j = 0 := Nat.le_zero.mp hj
  subst hj0
  have hi0 : i = 0 := Nat.le_zero.mp hij
  subst hi0
  exact Or.inl rfl

/-- C2 counterexample: the merged test id sequence `[7]` differs from the
reference test id sequence `[7, 7]` in length and position-wise content, yet
the merge stage succeeds and produces output, because `torch.eq` broadcasts
the length-1 id tensor; the claimed unconditional `AlignmentError` on any
difference is false. -/
theorem claim_C2_counterexample :
    (∃ out, mergeStage storeC2 = .ok out) ∧
      mergedTestIds storeC2 ≠ originalTestIds storeC2 ∧
      (mergedTestIds storeC2).length ≠ (originalTestIds storeC2).length := by
  refine ⟨⟨([], [{ id := 7, y := 0, embedding := [] }], [],
    [{ id := 7, y := 0, embedding := [] }, { id := 7, y := 1, embedding := [] }]), rfl⟩, ?_, ?_⟩
  · decide
  · decide

/-- C2 (amended): the merge stage succeeds (and returns the four id-sorted
collections) if and only if the merged and reference test id sequences are
broadcast-equal under `torch.eq`: equal sequences always pass, and differing
sequences fail — with `AlignmentError` (the assert) on a value mismatch and a
tensor shape error on a length mismatch — except when one sequence has
length 1 and every element of the other equals its single value, in which
case broadcasting lets the check pass despite the difference. -/
theorem claim_C2_amended (s : Store) :
    ((∃ out, mergeStage s = .ok out) ↔ broadcastIdsOk (mergedTestIds s) (originalTestIds s)) ∧
    (∀ out, mergeStage s = .ok out →
      out = (sortById (concatTasks s Mode.train), sortById (concatTasks s Mode.test),
        sortById (s.tasks 0 Mode.train), sortById (s.tasks 0 Mode.test))) ∧
    (bcastAllEq (mergedTestIds s) (originalTestIds s) = some false →
      mergeStage s = .error Err.alignment) ∧
    (bcastAllEq (mergedTestIds s) (originalTestIds s) = none →
      mergeStage s = .error Err.shapeMismatch) := by
  rw [mergeStage_eq]
  cases hb : bcastAllEq (mergedTestIds s) (originalTestIds s) with
  | none =>
      refine ⟨?_, ?_, ?_, ?_⟩
      · rw [← bcastAllEq_some_true_iff, hb]
        simp
      · intro out hout
        exact absurd hout (by simp)
      · intro hfalse
        exact absurd hfalse (by simp)
      · intro _
        rfl
  | some v =>
      cases v with
      | false =>
          refine ⟨?_, ?_, ?_, ?_⟩
          · rw [← bcastAllEq_some_true_iff, hb]
            simp
          · intro out hout
            exact absurd hout (by simp)
          · intro _
            rfl
          · intro hnone
            exact absurd hnone (by simp)
      | true =>
          refine ⟨?_, ?_, ?_, ?_⟩
          · rw [← bcastAllEq_some_true_iff, hb]
            simp
          · intro out hout
            cases hout
            rfl
          · intro hfalse
            exact absurd hfalse (by simp)
          · intro hnone
            exact absurd hnone (by simp)

theorem claim_C2_amended_witness : ∃ out, mergeStage storeC2w = .ok out :=
  ((claim_C2_amended storeC2w).1).mpr (Or.inl (by decide))

/-- C9: the merge stage performs no equality or length check for the train
split: whenever the test-side broadcast check passes, the stage succeeds and
returns the merged id-sorted train set as-is, even when the merged train id
sequence differs from the reference train id sequence. -/
theorem claim_C9_train_no_check (s : Store)
    (halign : broadcastIdsOk (mergedTestIds s) (originalTestIds s))
    (_hdiff : mergedTrainIds s ≠ originalTrainIds s) :
    mergeStage s = .ok (sortById (concatTasks s Mode.train), sortById (concatTasks s Mode.test),
      sortById (s.tasks 0 Mode.train), sortById (s.tasks 0 Mode.test)) := by
  rw [mergeStage_eq, (bcastAllEq_some_true_iff _ _).mpr halign]

theorem claim_C9_train_no_check_witness :
    mergeStage storeC9 = .ok (sortById (concatTasks storeC9 Mode.train),
      sortById (concatTasks storeC9 Mode.test), sortById (storeC9.tasks 0 Mode.train),
      sortById (storeC9.tasks 0 Mode.test)) :=
  claim_C9_train_no_check storeC9 (Or.inl (by decide)) (by decide)

/-- C6: for every task `i` in `1..num_tasks` and every split in
`{train, val, test}`, when every local label occurring in the data is covered
by the inverted mapping, label reconciliation rewrites each sample's `y` to
the global label obtained by inverting `global_to_local_class_mappings[i]`,
preserving sample order and leaving every other field unchanged. -/
theorem claim_C6_labels (s : Store)
    (h : ∀ i, 1 ≤ i → i ≤ s.numTasks → ∀ m, labelModes m →
      ∀ r ∈ s.tasks i m, (localToGlobal (s.g2l i) r.y).isSome) :
    ∃ s', stageMapLabels s = .ok s' ∧
      ∀ i, 1 ≤ i → i ≤ s.numTasks → ∀ m, labelModes m →
        s'.tasks i m = (s.tasks i m).map (fun r =>
          { r with y := (localToGlobal (s.g2l i) r.y).getD r.y }) := by
  have hdom : ∀ i ∈ List.range' 1 s.numTasks, ∀ m, labelModes m →
      ∀ r ∈ s.tasks i m, (localToGlobal (s.g2l i) r.y).isSome := by
    intro i hi m hm r hr
    rw [List.mem_range'_1] at hi
    exact h i hi.1 (by omega) m hm r hr
  obtain ⟨s', hok, _, _, htasks⟩ :=
    labelLoop_ok_spec (List.range' 1 s.numTasks) (List.nodup_range' _ _) s hdom
  refine ⟨s', hok, ?_⟩
  intro i h1 h2 m hm
  rw [htasks i m, if_pos ⟨List.mem_range'_1.mpr ⟨h1, by omega⟩, hm⟩]
  rfl

theorem claim_C6_labels_witness :
    ∃ s', stageMapLabels storeC6 = .ok s' ∧
      s'.tasks 1 Mode.train = [{ id := 1, y := 7, embedding := [] }] := by
  have h : ∀ i, 1 ≤ i → i ≤ storeC6.numTasks → ∀ m, labelModes m →
      ∀ r ∈ storeC6.tasks i m, (localToGlobal (storeC6.g2l i) r.y).isSome := by
    intro i h1 h2 m hm r hr
    have hi1 : i = 1 := by
      have : storeC6.numTasks = 1 := rfl
      omega
    subst hi1
    rcases hm with hm | hm | hm <;> subst hm <;> simp [storeC6] at hr
    rw [hr]
    rfl
  obtain ⟨s', hok, hchar⟩ := claim_C6_labels storeC6 h
  refine ⟨s', hok, ?_⟩
  rw [hchar 1 (le_refl 1) (le_refl 1) Mode.train (Or.inl rfl)]
  simp [storeC6, localToGlobal]

/-- C7: label reconciliation fails (with a `MissingLabelMapping`-style error,
the Python `KeyError`) if and only if some split in `{train, val, test}` of
some task `i` in `1..num_tasks` contains a local label that the inverted
mapping for task `i` does not cover; every error the stage can produce is of
that form, and it aborts the processing (no updated store is returned). -/
theorem claim_C7_missing_label (s : Store) :
    ((∃ e, stageMapLabels s = .error e) ↔
      ∃ i, 1 ≤ i ∧ i ≤ s.numTasks ∧ ∃ m, labelModes m ∧
        ∃ r ∈ s.tasks i m, localToGlobal (s.g2l i) r.y = none) ∧
    (∀ e, stageMapLabels s = .error e → ∃ i m y, e = Err.missingLabel i m y) := by
  constructor
  · unfold stageMapLabels
    rw [labelLoop_error_iff (List.range' 1 s.numTasks) (List.nodup_range' _ _) s]
    constructor
    · intro ⟨i, hi, hcond⟩
      rw [List.mem_range'_1] at hi
      exact ⟨i, hi.1, by omega, hcond⟩
    · intro ⟨i, h1, h2, hcond⟩
      exact ⟨i, List.mem_range'_1.mpr ⟨h1, by omega⟩, hcond⟩
  · intro e he
    exact labelLoop_error_form _ _ _ he

theorem claim_C7_missing_label_witness :
    (∃ e, stageMapLabels storeC7 = .error e) ∧
    (∀ e, stageMapLabels storeC7 = .error e → ∃ i m y, e = Err.missingLabel i m y) := by
  refine ⟨?_, (claim_C7_missing_label storeC7).2⟩
  apply (claim_C7_missing_label storeC7).1.mpr
  refine ⟨1, le_refl 1, le_refl 1, Mode.train, Or.inl rfl,
    { id := 1, y := 5, embedding := [] }, ?_, rfl⟩
  simp [storeC7]

/-- C8: saving a store that contains a metadata record and loading it back
yields a store whose metadata record equals the original; the metadata is
written to the dedicated `metadata.json` sidecar (`metaFile`), and the bulk
sample-persistence payload contains no `metadata` key at all. -/
theorem claim_C8_roundtrip (store : List (String × Entry)) (disk : DiskState) (e : Entry)
    (h : lookupKey store "metadata" = some e) :
    ∃ store1 disk', saveToDisk store disk = .ok (store1, disk') ∧
      (∃ loaded, loadFromDisk disk' = .ok loaded ∧ lookupKey loaded "metadata" = some e) ∧
      disk'.metaFile = some e ∧
      ∀ b, disk'.bulk = some b → lookupKey b "metadata" = none := by
  refine ⟨eraseKey store "metadata" ++ [("metadata", e)],
    { disk with metaFile := some e, bulk := some (eraseKey store "metadata") }, ?_, ?_, rfl, ?_⟩
  · unfold saveToDisk
    rw [h]
  · refine ⟨setKey (eraseKey store "metadata") "metadata" e, rfl, ?_⟩
    unfold setKey
    simp only [lookupKey_eraseKey_self]
    rw [lookupKey_append, lookupKey_eraseKey_self]
    rfl
  · intro b hb
    cases hb
    exact lookupKey_eraseKey_self store "metadata"

theorem claim_C8_roundtrip_witness :
    ∃ store1 disk', saveToDisk storeC8 { bulk := none, metaFile := none } = .ok (store1, disk') ∧
      (∃ loaded, loadFromDisk disk' = .ok loaded ∧
        lookupKey loaded "metadata" = some (Entry.meta metaC8)) ∧
      disk'.metaFile = some (Entry.meta metaC8) ∧
      ∀ b, disk'.bulk = some b → lookupKey b "metadata" = none :=
  claim_C8_roundtrip storeC8 { bulk := none, metaFile := none } (Entry.meta metaC8) rfl

/-- C10: `save_to_disk` leaves the in-memory store unchanged as a dictionary:
the metadata key, deleted before the bulk save, is re-assigned its original
value before returning, and every key (metadata included) still looks up to
exactly the value it had before the call. -/
theorem claim_C10_save_restores (store : List (String × Entry)) (disk : DiskState) (e : Entry)
    (h : lookupKey store "metadata" = some e) (store1 : List (String × Entry)) (disk' : DiskState)
    (hsave : saveToDisk store disk = .ok (store1, disk')) (k : String) :
    lookupKey store1 k = lookupKey store k := by
  unfold saveToDisk at hsave
  rw [h] at hsave
  cases hsave
  by_cases hk : k = "metadata"
  · subst hk
    rw [lookupKey_append, lookupKey_eraseKey_self, h]
    rfl
  · rw [lookupKey_append, lookupKey_eraseKey_ne store "metadata" k hk]
    cases hl : lookupKey store k with
    | some v => rfl
    | none =>
        have hne : "metadata" ≠ k := fun hc => hk hc.symm
        simp [lookupKey, hne]

theorem claim_C10_save_restores_witness :
    lookupKey storeC10saved "metadata" = lookupKey storeC10 "metadata" ∧
    lookupKey storeC10saved "task_0_test" = lookupKey storeC10 "task_0_test" :=
  ⟨claim_C10_save_restores storeC10 { bulk := none, metaFile := none } (Entry.meta metaC10)
      rfl storeC10saved diskC10 rfl "metadata",
   claim_C10_save_restores storeC10 { bulk := none, metaFile := none } (Entry.meta metaC10)
      rfl storeC10saved diskC10 rfl "task_0_test"⟩
